import Mathlib

/-!
Verification of the crazyflie-lib-rs client library (shallow embedding).

Machine integers are modelled as `Nat` (with explicit `% 2^w` where
truncation matters); byte strings are `List Nat` with every element `< 256`.
The floating-point variants of `Value` (`F16`, `F32`, `F64`) are modelled by
their raw little-endian bit patterns: the library's codec
(`Value::from_le_bytes` / `From<Value> for Vec<u8>`) only ever reinterprets
bits (`fXX::from_le_bytes` / `to_le_bytes` are bit casts in Rust), so the
bit-pattern model is exact for everything proved here.  Fallible Rust code
returning `Result<T, Error>` is modelled with `Except CfError T`; the
`String` payloads of the Rust `Error` enum are replaced by structured
payloads.  A Rust panic (slice indexing out of bounds, `unwrap`) is modelled
by the dedicated error `CfError.panicked`.
-/

/-- Error cases of the library (`crate::Error`), with the `String` reasons
replaced by the structured data they are formatted from.  `panicked` stands
for a Rust panic (out-of-bounds slice, failed `unwrap`). -/
inductive CfError where
  | protocolError
  | protocolTooShort
  | protocolNoErrorCode
  | paramNotFound
  | paramTypeMismatch
  | paramUnknownTocType (nibble : Nat)
  | paramErrorCode (code : Nat)
  | logError (code : Nat)
  | logNoMoreBlockIds
  | memoryStatusError (status : Nat) (addr : Nat)
  | memoryMalformed
  | conversionError
  | variableNotFound
  | disconnected
  | panicked
  deriving DecidableEq, Repr

/-- Embedding of `ValueType` from src/value.rs: all possible types of a `Value`. -/
inductive ValueType where
  | U8 | U16 | U32 | U64
  | I8 | I16 | I32 | I64
  | F16 | F32 | F64
  deriving DecidableEq, Repr

/-- Embedding of `ValueType::byte_length` from src/value.rs. -/
def ValueType.byte_length : ValueType → Nat
  | .U8 => 1
  | .U16 => 2
  | .U32 => 4
  | .U64 => 8
  | .I8 => 1
  | .I16 => 2
  | .I32 => 4
  | .I64 => 8
  | .F16 => 2
  | .F32 => 4
  | .F64 => 8

/-- Embedding of `Value` from src/value.rs.  Every constructor carries the raw
little-endian bit pattern of the Rust payload as a `Nat` (`i8`..`i64` in
two's complement, `f16`/`f32`/`f64` as their IEEE bit patterns). -/
inductive Value where
  | U8 (v : Nat) | U16 (v : Nat) | U32 (v : Nat) | U64 (v : Nat)
  | I8 (v : Nat) | I16 (v : Nat) | I32 (v : Nat) | I64 (v : Nat)
  | F16 (v : Nat) | F32 (v : Nat) | F64 (v : Nat)
  deriving DecidableEq, Repr

/-- Embedding of `impl From<Value> for ValueType` from src/value.rs. -/
def Value.valueType : Value → ValueType
  | .U8 _ => .U8
  | .U16 _ => .U16
  | .U32 _ => .U32
  | .U64 _ => .U64
  | .I8 _ => .I8
  | .I16 _ => .I16
  | .I32 _ => .I32
  | .I64 _ => .I64
  | .F16 _ => .F16
  | .F32 _ => .F32
  | .F64 _ => .F64

/-- Little-endian byte assembly: `uNN::from_le_bytes` on a byte list. -/
def ofLeBytes : List Nat → Nat
  | [] => 0
  | b :: rest => b + 256 * ofLeBytes rest

/-- Little-endian byte decomposition: `uNN::to_le_bytes`, producing exactly
`w` bytes (the low `8*w` bits of `n`). -/
def natToLeBytes : Nat → Nat → List Nat
  | 0, _ => []
  | w + 1, n => n % 256 :: natToLeBytes w (n / 256)

/-- Embedding of `Value::from_le_bytes` from src/value.rs: converts a byte slice to a
`Value`.  The `bytes.try_into()?` of each arm fails (with a
`ConversionError`) exactly when the slice length differs from the type
width; otherwise the bytes are reinterpreted. -/
def Value.from_le_bytes (bytes : List Nat) (value_type : ValueType) :
    Except CfError Value :=
  if bytes.length = value_type.byte_length then
    .ok <| match value_type with
      | .U8 => .U8 (ofLeBytes bytes)
      | .U16 => .U16 (ofLeBytes bytes)
      | .U32 => .U32 (ofLeBytes bytes)
      | .U64 => .U64 (ofLeBytes bytes)
      | .I8 => .I8 (ofLeBytes bytes)
      | .I16 => .I16 (ofLeBytes bytes)
      | .I32 => .I32 (ofLeBytes bytes)
      | .I64 => .I64 (ofLeBytes bytes)
      | .F16 => .F16 (ofLeBytes bytes)
      | .F32 => .F32 (ofLeBytes bytes)
      | .F64 => .F64 (ofLeBytes bytes)
  else .error .conversionError

/-- Embedding of `impl From<Value> for Vec<u8>` from src/value.rs: each payload's
`to_le_bytes`. -/
def Value.toLeBytes : Value → List Nat
  | .U8 v => natToLeBytes 1 v
  | .U16 v => natToLeBytes 2 v
  | .U32 v => natToLeBytes 4 v
  | .U64 v => natToLeBytes 8 v
  | .I8 v => natToLeBytes 1 v
  | .I16 v => natToLeBytes 2 v
  | .I32 v => natToLeBytes 4 v
  | .I64 v => natToLeBytes 8 v
  | .F16 v => natToLeBytes 2 v
  | .F32 v => natToLeBytes 4 v
  | .F64 v => natToLeBytes 8 v

/-- Embedding of `ParamItemInfo` from src/src/subsystems/param.rs. -/
structure ParamItemInfo where
  item_type : ValueType
  writable : Bool
  has_extended_type : Bool
  deriving DecidableEq, Repr

/-- Embedding of `impl TryFrom<u8> for ParamItemInfo` from src/src/subsystems/param.rs:
the low nibble (`value & 0x0f`) selects the numeric type, bit 6 clear means
writable, bit 4 set means extended-type info exists. -/
def ParamItemInfo.tryFromByte (value : Nat) : Except CfError ParamItemInfo :=
  match value &&& 0x0f with
  | 0x08 => .ok ⟨.U8, value &&& (1 <<< 6) = 0, value &&& (1 <<< 4) != 0⟩
  | 0x09 => .ok ⟨.U16, value &&& (1 <<< 6) = 0, value &&& (1 <<< 4) != 0⟩
  | 0x0A => .ok ⟨.U32, value &&& (1 <<< 6) = 0, value &&& (1 <<< 4) != 0⟩
  | 0x0B => .ok ⟨.U64, value &&& (1 <<< 6) = 0, value &&& (1 <<< 4) != 0⟩
  | 0x00 => .ok ⟨.I8, value &&& (1 <<< 6) = 0, value &&& (1 <<< 4) != 0⟩
  | 0x01 => .ok ⟨.I16, value &&& (1 <<< 6) = 0, value &&& (1 <<< 4) != 0⟩
  | 0x02 => .ok ⟨.I32, value &&& (1 <<< 6) = 0, value &&& (1 <<< 4) != 0⟩
  | 0x03 => .ok ⟨.I64, value &&& (1 <<< 6) = 0, value &&& (1 <<< 4) != 0⟩
  | 0x05 => .ok ⟨.F16, value &&& (1 <<< 6) = 0, value &&& (1 <<< 4) != 0⟩
  | 0x06 => .ok ⟨.F32, value &&& (1 <<< 6) = 0, value &&& (1 <<< 4) != 0⟩
  | 0x07 => .ok ⟨.F64, value &&& (1 <<< 6) = 0, value &&& (1 <<< 4) != 0⟩
  | n => .error (.paramUnknownTocType n)

/-- Modelled from the spec claim wording (for comparison with
`ParamItemInfo.tryFromByte`): an 11-entry association table on the low four
bits, writable exactly when bit 6 of the byte is clear, extended-type flag
exactly when bit 4 is set. -/
def paramItemInfoSpecDecode (b : Nat) : Except CfError ParamItemInfo :=
  let table : List (Nat × ValueType) :=
    [(0x00, .I8), (0x01, .I16), (0x02, .I32), (0x03, .I64),
     (0x05, .F16), (0x06, .F32), (0x07, .F64),
     (0x08, .U8), (0x09, .U16), (0x0A, .U32), (0x0B, .U64)]
  match table.lookup (b % 16) with
  | some t => .ok ⟨t, !(b.testBit 6), b.testBit 4⟩
  | none => .error (.paramUnknownTocType (b % 16))

/-- A parameter TOC: name to (id, item info), as the `toc` field of `Param`
(src/src/subsystems/param.rs), with the `BTreeMap` modelled as an
association list. -/
def ParamToc := List (String × Nat × ParamItemInfo)

/-- Embedding of `BTreeMap::get` on the association-list model. -/
def ParamToc.get (toc : ParamToc) (name : String) : Option (Nat × ParamItemInfo) :=
  match toc with
  | [] => none
  | (n, e) :: rest => if n = name then some e else ParamToc.get rest name

/-- The response-processing part of `Param::set` (src/src/subsystems/param.rs
lines 298-351): given the TOC, the name, the value and the data of the
answer packet matched by `wait_packet(PARAM_PORT, WRITE_CHANNEL, id_le)`,
compute the result.  Mirrors the source: TOC lookup, runtime type check,
`data.len() < 2` guard, comparison of `data[2..]` against the serialized
value, and on mismatch either the no-error-code protocol error (empty tail)
or `ParamError` carrying the first tail byte. -/
def Param.setResult (toc : ParamToc) (param : String) (value : Value)
    (answerData : List Nat) : Except CfError Unit :=
  match toc.get param with
  | none => .error .paramNotFound
  | some (_param_id, param_info) =>
    if param_info.item_type ≠ value.valueType then .error .paramTypeMismatch
    else if answerData.length < 2 then .error .protocolTooShort
    else
      let echoed_bytes := answerData.drop 2
      if echoed_bytes = value.toLeBytes then .ok ()
      else if echoed_bytes = [] then .error .protocolNoErrorCode
      else .error (.paramErrorCode (echoed_bytes.headD 0))

/-- The mutable state of the `Param` struct relevant to set/get/watch: the
`values` cache (name to optional cached `Value`) and, for each live watcher
stream registered by `watch_change`, the sequence of tuples it has received
so far (the watcher's unbounded channel contents). -/
structure ParamState where
  values : List (String × Option Value)
  watchers : List (List (String × Value))
  deriving DecidableEq, Repr

/-- Association-list lookup used for the `values` cache (`HashMap::get`). -/
def lookupValues : List (String × Option Value) → String → Option (Option Value)
  | [], _ => none
  | (n, e) :: rest, name => if n = name then some e else lookupValues rest name

/-- Read of the `values` cache (`HashMap::get`). -/
def ParamState.getValue (s : ParamState) (name : String) : Option (Option Value) :=
  lookupValues s.values name

/-- Embedding of `*values.get_mut(param).unwrap() = Some(value)`: update the entry for
`name` in place (no insertion of new keys). -/
def updateValues (vs : List (String × Option Value)) (name : String) (v : Value) :
    List (String × Option Value) :=
  vs.map fun (n, old) => if n = name then (n, some v) else (n, old)

/-- Embedding of `notify_watchers` (src/src/subsystems/param.rs lines 92-106): every live
watcher receives the `(name, value)` tuple exactly once via
`unbounded_send`.  (Watchers whose receiver was dropped are pruned by the
source; the model tracks live watchers only.) -/
def notify_watchers (watchers : List (List (String × Value)))
    (name : String) (value : Value) : List (List (String × Value)) :=
  watchers.map fun w => w ++ [(name, value)]

/-- Embedding of `Param::set` as a step on `ParamState`: the result of
`Param.setResult` plus the state mutation of the success branch (cache
update through `get_mut(param).unwrap()` then `notify_watchers`).  A failed
`unwrap` (name absent from the cache, impossible in the source because the
cache is seeded from the TOC) is modelled as `CfError.panicked`. -/
def Param.setStep (toc : ParamToc) (s : ParamState) (param : String)
    (value : Value) (answerData : List Nat) : Except CfError Unit × ParamState :=
  match Param.setResult toc param value answerData with
  | .ok () =>
    match s.getValue param with
    | some _ =>
      (.ok (), ⟨updateValues s.values param value,
                notify_watchers s.watchers param value⟩)
    | none => (.error .panicked, s)
  | .error e => (.error e, s)

/-- Embedding of `Param::get` (src/src/subsystems/param.rs lines 379-406) with `T =
Value`: serve the value from the `values` cache; on a `None` cache entry
issue one READ request (`read_value`: payload `id_le`, answer decoded from
`data[3..]`) and fill the cache.  Returns the result, the list of READ
request payloads issued on the link, and the new state.  `readResp` is the
data of the packet `wait_packet` would match for the request. -/
def Param.get (toc : ParamToc) (s : ParamState) (name : String)
    (readResp : List Nat) :
    Except CfError Value × List (List Nat) × ParamState :=
  match s.getValue name with
  | none => (.error .paramNotFound, [], s)
  | some (some v) => (.ok v, [], s)
  | some none =>
    match toc.get name with
    | none => (.error .paramNotFound, [], s)
    | some (param_id, param_info) =>
      let request := natToLeBytes 2 param_id
      match Value.from_le_bytes (readResp.drop 3) param_info.item_type with
      | .ok v => (.ok v, [request], ⟨updateValues s.values name v, s.watchers⟩)
      | .error e => (.error e, [request], s)

/-- Embedding of `data[start..end].copy_from_slice(new)` on the list model: replaces the
`new.length` bytes of `data` starting at offset `start`.  Coincides with the
Rust slice copy whenever `start + new.length ≤ data.length` (the only case
in which the Rust code does not panic; the callers below guard it). -/
def splice (data : List Nat) (start : Nat) (new : List Nat) : List Nat :=
  data.take start ++ new ++ data.drop (start + new.length)

/-- The `while` loop of `MemoryBackend::read`
(src/src/subsystems/memory/memory_types.rs lines 38-97).  `respond current
to_read` is the data of the packet `wait_packet(MEMORY_PORT, READ_CHANNEL,
request_data[0..5])` delivers for the chunk request at `current`.  Returns
the list of chunk request payloads sent and the final result.  Mirrors the
source: `to_read = min(24, remaining)`, request `id ∥ addr_le32 ∥ len_u8`,
the `< 6` malformed guard, the address echo comparison against `current as
u32`, the `status == 0` test, the slice copy (out-of-bounds copy = Rust
panic, modelled as `CfError.panicked`), and the non-zero status abort. -/
def MemoryBackend.readGo (memory_id address : Nat)
    (respond : Nat → Nat → List Nat) :
    (current : Nat) → (remaining : Nat) → (data : List Nat) →
    List (List Nat) × Except CfError (List Nat)
  | _, 0, data => ([], .ok data)
  | current, r + 1, data =>
    let to_read := min 24 (r + 1)
    let request_data := memory_id :: (natToLeBytes 4 current ++ [to_read])
    let pk_data := respond current to_read
    if pk_data.length < 6 then ([request_data], .error .memoryMalformed)
    else
      let read_address := ofLeBytes ((pk_data.drop 1).take 4)
      let status := pk_data.getD 5 0
      if 6 ≤ pk_data.length ∧ read_address = current % 2 ^ 32 ∧ status = 0 then
        let read_data := pk_data.drop 6
        let start := current - address
        if start + read_data.length ≤ data.length then
          let rest := MemoryBackend.readGo memory_id address respond
              (current + to_read) (r + 1 - to_read) (splice data start read_data)
          (request_data :: rest.1, rest.2)
        else ([request_data], .error .panicked)
      else if status ≠ 0 then
        ([request_data], .error (.memoryStatusError status current))
      else ([request_data], .error .memoryMalformed)
  termination_by _ r _ => r
  decreasing_by omega

/-- Embedding of `MemoryBackend::read`: `data = vec![0; length]`, loop from `address`
while `current_address < address + length`. -/
def MemoryBackend.read (memory_id address length : Nat)
    (respond : Nat → Nat → List Nat) :
    List (List Nat) × Except CfError (List Nat) :=
  MemoryBackend.readGo memory_id address respond address length
    (List.replicate length 0)

/-- Link-level events of a memory write: a request sent on the uplink, or a
`wait_packet` on the write downlink for a packet whose data starts with the
given five bytes. -/
inductive MemEvent where
  | send (data : List Nat)
  | waitEcho (head5 : List Nat)
  deriving DecidableEq, Repr

/-- The `while` loop of `MemoryBackend::write`
(src/src/subsystems/memory/memory_types.rs lines 99-135).  `respond
current` is the echo packet `wait_packet` delivers for the chunk at
`current`; as in the source (`let _pk = ...`) it is bound and never
inspected.  Returns the ordered event trace (each chunk: send, then
wait-for-echo before the next send) and the result, which the source
produces without ever reading a status byte. -/
def MemoryBackend.writeGo (memory_id address : Nat) (data : List Nat)
    (respond : Nat → List Nat) :
    (current : Nat) → (remaining : Nat) → List MemEvent × Except CfError Unit
  | _, 0 => ([], .ok ())
  | current, r + 1 =>
    let to_write := min 24 (r + 1)
    let start := current - address
    let chunk := (data.drop start).take to_write
    let request_data := memory_id :: (natToLeBytes 4 current ++ chunk)
    let _pk := respond current
    let rest := MemoryBackend.writeGo memory_id address data respond
        (current + to_write) (r + 1 - to_write)
    (.send request_data :: .waitEcho (request_data.take 5) :: rest.1, rest.2)
  termination_by _ r => r
  decreasing_by omega

/-- Embedding of `MemoryBackend::write`: loop from `address` over `data.len()` bytes. -/
def MemoryBackend.write (memory_id address : Nat) (data : List Nat)
    (respond : Nat → List Nat) : List MemEvent × Except CfError Unit :=
  MemoryBackend.writeGo memory_id address data respond address data.length

/-- Embedding of `LogData` from src/crazyflie-lib/src/log.rs (the `HashMap` of decoded
values modelled as an association list in declaration order). -/
structure LogData where
  timestamp : Nat
  data : List (String × Value)
  deriving DecidableEq, Repr

/-- The variable-decoding loop of `LogStream::decode_packet`: walk the
declared variables, slicing `data[index..index+byte_length]` for each
(out-of-bounds slice = Rust panic). -/
def decodeVarsGo (data : List Nat) :
    List (String × ValueType) → Nat → Except CfError (List (String × Value))
  | [], _ => .ok []
  | (name, value_type) :: rest, index =>
    let byte_length := value_type.byte_length
    if index + byte_length ≤ data.length then
      match Value.from_le_bytes ((data.drop index).take byte_length) value_type with
      | .ok v => (decodeVarsGo data rest (index + byte_length)).map
          (fun l => (name, v) :: l)
      | .error e => .error e
    else .error .panicked

/-- Embedding of `LogStream::decode_packet` (src/crazyflie-lib/src/log.rs lines 471-492):
`data` is the packet payload with the leading block id already stripped by
`next()`.  The source takes `data[0..=2]`, INSERTS a zero byte at index 0
(`timestamp.insert(0, 0)`) and reads the four bytes as a little-endian u32;
then decodes the variables starting at index 3. -/
def LogStream.decode_packet (vars : List (String × ValueType))
    (data : List Nat) : Except CfError LogData :=
  if data.length < 3 then .error .panicked
  else
    let timestamp := ofLeBytes (0 :: data.take 3)
    (decodeVarsGo data vars 3).map (fun l => ⟨timestamp, l⟩)

/-- Embedding of `LogStream::next`: passes `packet.get_data()[1..]` (block id stripped)
to `decode_packet`. -/
def LogStream.next (vars : List (String × ValueType))
    (packetData : List Nat) : Except CfError LogData :=
  if packetData.length < 1 then .error .panicked
  else LogStream.decode_packet vars (packetData.drop 1)

/-- Embedding of `Log::generate_next_block_id` (src/crazyflie-lib/src/log.rs lines
160-168): error when the counter reached `u8::MAX`, otherwise return the
counter and increment it. -/
def Log.generate_next_block_id (counter : Nat) : Except CfError Nat × Nat :=
  if counter = 255 then (.error .logNoMoreBlockIds, counter)
  else (.ok counter, counter + 1)

/-- One `Log::create_block` call (src/crazyflie-lib/src/log.rs lines
204-247) as a step on the block-id counter: generate the next id (consuming
it), then check the control echo's status byte `pk.get_data()[2]`
(`deviceStatus`); a non-zero status yields a `LogError` but the id stays
consumed.  (`cleanup_blocks` never touches the counter and is omitted.) -/
def Log.create_block_step (counter : Nat) (deviceStatus : Nat) :
    Except CfError Nat × Nat :=
  match Log.generate_next_block_id counter with
  | (.error e, c) => (.error e, c)
  | (.ok id, c) =>
    if deviceStatus ≠ 0 then (.error (.logError deviceStatus), c)
    else (.ok id, c)

/-- A sequence of `create_block` calls over one connection, one device
status byte per call, starting from the given counter value. -/
def Log.runCreateBlocks (counter : Nat) : List Nat → List (Except CfError Nat)
  | [] => []
  | s :: rest =>
    let step := Log.create_block_step counter s
    step.1 :: Log.runCreateBlocks step.2 rest

/-- The block ids returned by the successful calls of a run. -/
def successIds (results : List (Except CfError Nat)) : List Nat :=
  results.filterMap fun r => match r with | .ok i => some i | .error _ => none

/-- Embedding of `crtp_channel_dispatcher` (src/src/crtp_utils.rs lines 170-201), sender
side: `senders.push(tx)` four times, so the sender at index `i` feeds the
receiver created in round `i` (both labelled `i` here). -/
def channelDispatcherSenders : List Nat :=
  (List.range 4).foldl (fun s i => s ++ [i]) []

/-- Embedding of `crtp_channel_dispatcher`, receiver side: `receivers.insert(0, rx)` four
times (each round pushes the new receiver label at the front). -/
def channelDispatcherReceiverStack : List Nat :=
  (List.range 4).foldl (fun r i => i :: r) []

/-- Embedding of `Vec::pop`: removes and returns the LAST element. -/
def listPop (l : List Nat) : Option Nat × List Nat := (l.getLast?, l.dropLast)

/-- The tuple returned by `crtp_channel_dispatcher`, as the list of receiver
labels in tuple order: four successive `receivers.pop().unwrap()` calls. -/
def dispatcherTupleList : List (Option Nat) :=
  let p1 := listPop channelDispatcherReceiverStack
  let p2 := listPop p1.2
  let p3 := listPop p2.2
  let p4 := listPop p3.2
  [p1.1, p2.1, p3.1, p4.1]

/-- The routing task of `crtp_channel_dispatcher`: a packet with channel
`< 4` is sent to `senders[channel]`; any other packet is dropped. -/
def dispatchRoute (channel : Nat) : Option Nat :=
  if channel < 4 then channelDispatcherSenders.get? channel else none

/-- The floating-point casts used by `Value::from_f64_lossy`, abstracted
over the carrier type `F` of `f64` values: `value as u64` and `value as
i64` (saturating casts, total in Rust), `f16::from_f64` and `value as f32`
(bit patterns of the results), and the bit pattern of the `f64` itself.
The claims about `from_f64_lossy` proved below hold for every choice of
these functions, hence in particular for the real IEEE-754 ones. -/
structure FloatOps (F : Type) where
  f64_to_u64 : F → Nat
  f64_to_i64 : F → Int
  f16_from_f64 : F → Nat
  f32_from_f64 : F → Nat
  f64_bits : F → Nat

/-- Embedding of `Value::from_f64_lossy` (src/value.rs lines 207-221): build a `Value` of
the requested type from an `f64`.  Integer arms truncate to the target
width (`(value as u64) as uNN` / `(value as i64) as iNN`); float arms
convert precision.  Total: every arm produces a `Value`. -/
def Value.from_f64_lossy {F : Type} (ops : FloatOps F)
    (value_type : ValueType) (value : F) : Value :=
  match value_type with
  | .U8 => .U8 (ops.f64_to_u64 value % 2 ^ 8)
  | .U16 => .U16 (ops.f64_to_u64 value % 2 ^ 16)
  | .U32 => .U32 (ops.f64_to_u64 value % 2 ^ 32)
  | .U64 => .U64 (ops.f64_to_u64 value)
  | .I8 => .I8 (((ops.f64_to_i64 value).emod (2 ^ 8)).toNat)
  | .I16 => .I16 (((ops.f64_to_i64 value).emod (2 ^ 16)).toNat)
  | .I32 => .I32 (((ops.f64_to_i64 value).emod (2 ^ 32)).toNat)
  | .I64 => .I64 (((ops.f64_to_i64 value).emod (2 ^ 64)).toNat)
  | .F16 => .F16 (ops.f16_from_f64 value)
  | .F32 => .F32 (ops.f32_from_f64 value)
  | .F64 => .F64 (ops.f64_bits value)

/-- Concrete sample TOC used by the witnesses: one u16 parameter with id 7. -/
def tocSample : ParamToc := [("test.u16", (7, ⟨.U16, true, false⟩))]

/-- Concrete sample `ParamState` used by the witnesses: the cache is seeded
with the TOC name (value not yet read), one watcher with an empty queue. -/
def stateSample : ParamState := ⟨[("test.u16", none)], [[]]⟩

/-- The `stateSample` after a successful `set("test.u16", U16 0xBEEF)`. -/
def stateSampleAfter : ParamState :=
  ⟨[("test.u16", some (.U16 0xBEEF))], [[("test.u16", .U16 0xBEEF)]]⟩

/-- Modelled from the spec wording of write chunking ("each request is
`id ∥ addr_le32 ∥ bytes` (up to 24 bytes of data)", mirror of read): the
chunk decomposition of a write, as (chunk address, chunk bytes) pairs at
consecutive addresses. -/
def writeChunksSpec : Nat → List Nat → List (Nat × List Nat)
  | _, [] => []
  | addr, d :: rest =>
    (addr, (d :: rest).take 24) ::
      writeChunksSpec (addr + min 24 (d :: rest).length) ((d :: rest).drop 24)
  termination_by _ d => d.length
  decreasing_by simp ; omega

/-- The event trace the spec predicts for a chunked write: for each chunk,
a send of `id ∥ addr_le32 ∥ bytes` followed by a wait for an echo starting
with `id ∥ addr_le32`, before the next chunk is sent. -/
def writeTraceSpec (memory_id address : Nat) (data : List Nat) : List MemEvent :=
  (writeChunksSpec address data).flatMap fun chunk =>
    [.send (memory_id :: (natToLeBytes 4 chunk.1 ++ chunk.2)),
     .waitEcho (memory_id :: natToLeBytes 4 chunk.1)]

/-- The read chunk requests predicted for a read of `r` bytes starting at
`cur`: `id ∥ addr_le32 ∥ len_u8` with `len = min 24 remaining`, at
consecutive addresses. -/
def readReqsSpec (memory_id : Nat) : Nat → Nat → List (List Nat)
  | _, 0 => []
  | cur, r + 1 =>
    (memory_id :: (natToLeBytes 4 cur ++ [min 24 (r + 1)])) ::
      readReqsSpec memory_id (cur + min 24 (r + 1)) (r + 1 - min 24 (r + 1))
  termination_by _ r => r
  decreasing_by omega

/-- The concatenation, in address order, of the per-chunk payloads a device
described by `payload` returns for a read of `r` bytes starting at `cur`. -/
def readPayloadAll (payload : Nat → Nat → List Nat) : Nat → Nat → List Nat
  | _, 0 => []
  | cur, r + 1 =>
    payload cur (min 24 (r + 1)) ++
      readPayloadAll payload (cur + min 24 (r + 1)) (r + 1 - min 24 (r + 1))
  termination_by _ r => r
  decreasing_by omega

/-- The address of the first chunk of a read of `r` bytes starting at `cur`
for which the device status `st` is non-zero, if any. -/
def firstBadChunk (st : Nat → Nat) : Nat → Nat → Option Nat
  | _, 0 => none
  | cur, r + 1 =>
    if st cur ≠ 0 then some cur
    else firstBadChunk st (cur + min 24 (r + 1)) (r + 1 - min 24 (r + 1))
  termination_by _ r => r
  decreasing_by omega

/-- A well-formed device response for read chunk requests: the echoed
memory id and little-endian address, a status byte from `st`, then the
payload bytes. -/
def mkReadResponse (memory_id : Nat) (st : Nat → Nat)
    (payload : Nat → Nat → List Nat) (cur t : Nat) : List Nat :=
  memory_id :: (natToLeBytes 4 cur ++ (st cur :: payload cur t))

instance exceptDecEq {e a : Type} [DecidableEq e] [DecidableEq a] :
    DecidableEq (Except e a) := fun x y =>
  match x, y with
  | .ok u, .ok v =>
    if h : u = v then isTrue (by rw [h]) else isFalse (fun hc => by cases hc ; exact h rfl)
  | .error u, .error v =>
    if h : u = v then isTrue (by rw [h]) else isFalse (fun hc => by cases hc ; exact h rfl)
  | .ok _, .error _ => isFalse (fun hc => by cases hc)
  | .error _, .ok _ => isFalse (fun hc => by cases hc)

theorem natToLeBytes_length (w n : Nat) : (natToLeBytes w n).length = w := by
  induction w generalizing n with
  | zero => rfl
  | succ w ih => simp [natToLeBytes, ih]

theorem natToLeBytes_ofLeBytes (b : List Nat) (hb : ∀ x ∈ b, x < 256) :
    natToLeBytes b.length (ofLeBytes b) = b := by
  induction b with
  | nil => rfl
  | cons x rest ih =>
    have hx : x < 256 := hb x (by simp)
    simp only [List.length_cons, natToLeBytes, ofLeBytes]
    have h1 : (x + 256 * ofLeBytes rest) % 256 = x := by
      rw [Nat.add_mul_mod_self_left, Nat.mod_eq_of_lt hx]
    have h2 : (x + 256 * ofLeBytes rest) / 256 = ofLeBytes rest := by
      rw [Nat.add_mul_div_left _ _ (by norm_num : 0 < 256), Nat.div_eq_of_lt hx]
      omega
    rw [h1, h2, ih (fun y hy => hb y (by simp [hy]))]

theorem ofLeBytes_natToLeBytes4 (n : Nat) :
    ofLeBytes (natToLeBytes 4 n) = n % 2 ^ 32 := by
  simp only [natToLeBytes, ofLeBytes]
  omega

/-- Claim C5: for every `ValueType t` and every byte string `b` of length
`t.byte_length()`, serializing the decoded value back to bytes is the
identity: `Vec::<u8>::from(Value::from_le_bytes(b, t).unwrap()) == b`. -/
theorem value_codec_round_trip (t : ValueType) (b : List Nat)
    (hlen : b.length = t.byte_length) (hb : ∀ x ∈ b, x < 256) :
    (Value.from_le_bytes b t).map Value.toLeBytes = .ok b := by
  cases t <;>
  · simp only [ValueType.byte_length] at hlen
    simp only [Value.from_le_bytes, ValueType.byte_length, if_pos hlen,
      Except.map, Value.toLeBytes]
    rw [← hlen, natToLeBytes_ofLeBytes b hb]

theorem value_codec_round_trip_witness :
    (Value.from_le_bytes [239, 190] .U16).map Value.toLeBytes = .ok [239, 190] :=
  value_codec_round_trip .U16 [239, 190] (by decide) (by decide)

/-- Claim C10: the value built by `Value::from_f64_lossy(t, x)` always has
type `t` (`ValueType::from(Value::from_f64_lossy(t, x)) == t`), and the
conversion is total — it returns a `Value` for every input and for every
interpretation of the floating-point casts (so in particular for the real
saturating IEEE-754 casts, which never panic). -/
theorem from_f64_lossy_preserves_type {F : Type} (ops : FloatOps F)
    (t : ValueType) (x : F) :
    (Value.from_f64_lossy ops t x).valueType = t := by
  cases t <;> rfl

/-- Claim C1 (code bug): on the log data packet `[0, 1, 0, 0]` (block 0,
timestamp bytes `01 00 00`, no variables) the decoded timestamp is 256,
not the 1 that zero-extending the 24-bit little-endian counter gives: the
source inserts the zero byte at the LOW end (`timestamp.insert(0, 0)`), so
in general it computes `256*ts0 + 65536*ts1 + 16777216*ts2` instead of the
claimed `ts0 + 256*ts1 + 65536*ts2`. -/
theorem log_timestamp_low_byte_zero :
    LogStream.next [] [0, 1, 0, 0] = .ok ⟨256, []⟩ ∧
    ∀ b t0 t1 t2 : Nat, LogStream.next [] [b, t0, t1, t2] =
      .ok ⟨256 * t0 + 65536 * t1 + 16777216 * t2, []⟩ := by
  constructor
  · decide
  · intro b t0 t1 t2
    simp only [LogStream.next, LogStream.decode_packet, decodeVarsGo,
      List.drop, List.take, List.length, ofLeBytes, Except.map]
    norm_num
    ring

/-- Claim C7: for every byte, the param TOC item-type decoder selects the
item type by the low 4 bits per the fixed 11-entry table (0x00..0x03 the
signed ints, 0x05..0x07 the floats, 0x08..0x0B the unsigned ints, error
otherwise), `writable` is true exactly when bit 6 is clear and
`has_extended_type` exactly when bit 4 is set — stated as agreement with
the table-driven decoder written from the claim. -/
theorem param_item_byte_decoding (b : Nat) (hb : b < 256) :
    ParamItemInfo.tryFromByte b = paramItemInfoSpecDecode b := by
  interval_cases b <;> rfl

theorem param_item_byte_decoding_witness :
    ParamItemInfo.tryFromByte 0x59 = paramItemInfoSpecDecode 0x59 :=
  param_item_byte_decoding 0x59 (by decide)

/-- Claim C9: the four receivers returned by `crtp_channel_dispatcher` are
ordered by channel index — a packet of channel `c < 4` is forwarded to
exactly the `c`-th element of the returned tuple (and to no other element),
and a packet with channel `≥ 4` is dropped (routed to no sender). -/
theorem channel_dispatcher_routing :
    (∀ c : Nat, c < 4 →
      ∃ s, dispatchRoute c = some s ∧
        dispatcherTupleList.get? c = some (some s) ∧
        ∀ j : Nat, j < 4 → dispatcherTupleList.get? j = some (some s) → j = c) ∧
    ∀ c : Nat, 4 ≤ c → dispatchRoute c = none := by
  constructor
  · intro c hc
    interval_cases c
    · refine ⟨0, by decide, by decide, ?_⟩
      intro j hj
      interval_cases j <;> decide
    · refine ⟨1, by decide, by decide, ?_⟩
      intro j hj
      interval_cases j <;> decide
    · refine ⟨2, by decide, by decide, ?_⟩
      intro j hj
      interval_cases j <;> decide
    · refine ⟨3, by decide, by decide, ?_⟩
      intro j hj
      interval_cases j <;> decide
  · intro c hc
    rw [dispatchRoute, if_neg (by omega)]

theorem channel_dispatcher_routing_witness :
    (∃ s, dispatchRoute 2 = some s ∧
      dispatcherTupleList.get? 2 = some (some s) ∧
      ∀ j : Nat, j < 4 → dispatcherTupleList.get? j = some (some s) → j = 2) ∧
    dispatchRoute 7 = none :=
  ⟨channel_dispatcher_routing.1 2 (by decide),
   channel_dispatcher_routing.2 7 (by decide)⟩

theorem toLeBytes_ne_nil (v : Value) : v.toLeBytes ≠ [] := by
  cases v <;> simp [Value.toLeBytes, natToLeBytes]

/-- Claim C3: for a parameter present in the TOC and a value of the TOC's
item type, `Param::set` returns `Ok` exactly when the echoed bytes after
the 2-byte id equal the little-endian serialization of the value; any
other non-empty tail surfaces as a `ParamError` carrying the first echoed
tail byte as error code (e.g. a reply `id_le ∥ 0x03` to a u16 write gives
error code 3 — see the witness). -/
theorem param_set_echo (toc : ParamToc) (param : String) (value : Value)
    (id : Nat) (info : ParamItemInfo) (answer : List Nat)
    (hlook : toc.get param = some (id, info))
    (htype : info.item_type = value.valueType) :
    (Param.setResult toc param value answer = .ok () ↔
      answer.drop 2 = value.toLeBytes) ∧
    (2 ≤ answer.length → answer.drop 2 ≠ value.toLeBytes → answer.drop 2 ≠ [] →
      Param.setResult toc param value answer =
        .error (.paramErrorCode ((answer.drop 2).headD 0))) := by
  have hne := toLeBytes_ne_nil value
  have hres : Param.setResult toc param value answer =
      (if answer.length < 2 then (.error .protocolTooShort : Except CfError Unit)
       else if answer.drop 2 = value.toLeBytes then .ok ()
       else if answer.drop 2 = [] then .error .protocolNoErrorCode
       else .error (.paramErrorCode ((answer.drop 2).headD 0))) := by
    simp [Param.setResult, hlook, htype]
  constructor
  · rw [hres]
    by_cases h1 : answer.length < 2
    · rw [if_pos h1]
      have hdrop : answer.drop 2 = [] := List.drop_eq_nil_of_le (by omega)
      constructor
      · intro hc
        exact absurd hc (by simp)
      · intro hd
        rw [hdrop] at hd
        exact (hne hd.symm).elim
    · rw [if_neg h1]
      by_cases h2 : answer.drop 2 = value.toLeBytes
      · rw [if_pos h2]
        simp [h2]
      · rw [if_neg h2]
        constructor
        · intro hc
          split_ifs at hc
        · intro hd
          exact absurd hd h2
  · intro hlen hneq hnil
    rw [hres, if_neg (by omega), if_neg hneq, if_neg hnil]

theorem param_set_echo_witness :
    (Param.setResult tocSample "test.u16" (.U16 0xBEEF) [7, 0, 0xEF, 0xBE] = .ok () ↔
      ([7, 0, 0xEF, 0xBE] : List Nat).drop 2 = (Value.U16 0xBEEF).toLeBytes) ∧
    Param.setResult tocSample "test.u16" (.U16 0xBEEF) [7, 0, 3] =
      .error (.paramErrorCode 3) :=
  ⟨(param_set_echo tocSample "test.u16" (.U16 0xBEEF) 7 ⟨.U16, true, false⟩
      [7, 0, 0xEF, 0xBE] (by decide) (by decide)).1,
   (param_set_echo tocSample "test.u16" (.U16 0xBEEF) 7 ⟨.U16, true, false⟩
      [7, 0, 3] (by decide) (by decide)).2 (by decide) (by decide) (by decide)⟩


theorem create_block_step_eq (c s : Nat) :
    Log.create_block_step c s =
      if c = 255 then (.error .logNoMoreBlockIds, c)
      else if s ≠ 0 then (.error (.logError s), c + 1)
      else (.ok c, c + 1) := by
  simp only [Log.create_block_step, Log.generate_next_block_id]
  split_ifs <;> simp_all

theorem runCreateBlocks_cons (c s : Nat) (rest : List Nat) :
    Log.runCreateBlocks c (s :: rest) =
      (Log.create_block_step c s).1 ::
        Log.runCreateBlocks (Log.create_block_step c s).2 rest := rfl

theorem successIds_cons_error (e : CfError) (l : List (Except CfError Nat)) :
    successIds (.error e :: l) = successIds l := rfl

theorem successIds_cons_ok (i : Nat) (l : List (Except CfError Nat)) :
    successIds (.ok i :: l) = i :: successIds l := rfl

theorem runCreateBlocks_chain (ss : List Nat) : ∀ c,
    (∀ i ∈ successIds (Log.runCreateBlocks c ss), c ≤ i) ∧
    List.Chain' (· < ·) (successIds (Log.runCreateBlocks c ss)) := by
  induction ss with
  | nil =>
    intro c
    simp [Log.runCreateBlocks, successIds]
  | cons s rest ih =>
    intro c
    by_cases hc : c = 255
    · have hstep : Log.create_block_step c s = (.error .logNoMoreBlockIds, c) := by
        rw [create_block_step_eq, if_pos hc]
      rw [runCreateBlocks_cons, hstep]
      dsimp only
      rw [successIds_cons_error]
      exact ih c
    · by_cases hs : s ≠ 0
      · have hstep : Log.create_block_step c s = (.error (.logError s), c + 1) := by
          rw [create_block_step_eq, if_neg hc, if_pos hs]
        rw [runCreateBlocks_cons, hstep]
        dsimp only
        rw [successIds_cons_error]
        refine ⟨fun i hi => ?_, (ih (c + 1)).2⟩
        have := (ih (c + 1)).1 i hi
        omega
      · have hstep : Log.create_block_step c s = (.ok c, c + 1) := by
          rw [create_block_step_eq, if_neg hc, if_neg hs]
        rw [runCreateBlocks_cons, hstep]
        dsimp only
        rw [successIds_cons_ok]
        constructor
        · intro i hi
          rcases List.mem_cons.1 hi with h | h
          · omega
          · have := (ih (c + 1)).1 i h
            omega
        · rw [List.chain'_cons']
          refine ⟨fun y hy => ?_, (ih (c + 1)).2⟩
          have hmem : y ∈ successIds (Log.runCreateBlocks (c + 1) rest) :=
            List.mem_of_mem_head? hy
          have := (ih (c + 1)).1 y hmem
          omega

theorem runCreateBlocks_all_ok (n : Nat) : ∀ c, c + n ≤ 255 →
    Log.runCreateBlocks c (List.replicate n 0) =
      (List.range' c n).map Except.ok := by
  induction n with
  | zero =>
    intro c h
    simp [Log.runCreateBlocks]
  | succ n ih =>
    intro c h
    have hstep : Log.create_block_step c 0 = (.ok c, c + 1) := by
      rw [create_block_step_eq, if_neg (by omega), if_neg (by simp)]
    rw [List.replicate_succ, runCreateBlocks_cons, hstep]
    dsimp only
    rw [ih (c + 1) (by omega), List.range'_succ]
    rfl

theorem runCreateBlocks_exhausted (ss : List Nat) :
    Log.runCreateBlocks 255 ss = ss.map (fun _ => .error .logNoMoreBlockIds) := by
  induction ss with
  | nil => rfl
  | cons s rest ih =>
    have hstep : Log.create_block_step 255 s = (.error .logNoMoreBlockIds, 255) := by
      rw [create_block_step_eq, if_pos rfl]
    rw [runCreateBlocks_cons, hstep]
    dsimp only
    rw [ih]
    rfl

/-- Claim C8 (amended): the block ids returned by successful `create_block`
calls form a strictly increasing sequence; the id counter starts at 0, so
when every call succeeds at the device the ids are exactly `0, 1, ..., n-1`
(at most 255 of them); and once the counter is exhausted (255 ids
consumed) every further call returns a `LogError` instead of an id.  (The
original claim's "starting at 0" fails when an earlier call consumed an id
but failed at the device — see the counterexample.) -/
theorem log_block_id_monotone :
    (∀ ss : List Nat, List.Chain' (· < ·) (successIds (Log.runCreateBlocks 0 ss))) ∧
    (∀ n : Nat, n ≤ 255 → Log.runCreateBlocks 0 (List.replicate n 0) =
      (List.range' 0 n).map Except.ok) ∧
    (∀ ss : List Nat, Log.runCreateBlocks 255 ss =
      ss.map (fun _ => .error .logNoMoreBlockIds)) :=
  ⟨fun ss => (runCreateBlocks_chain ss 0).2,
   fun n h => runCreateBlocks_all_ok n 0 (by omega),
   runCreateBlocks_exhausted⟩

theorem log_block_id_monotone_witness :
    List.Chain' (· < ·) (successIds (Log.runCreateBlocks 0 [0, 1, 0])) ∧
    Log.runCreateBlocks 0 (List.replicate 2 0) = [.ok 0, .ok 1] ∧
    Log.runCreateBlocks 255 [0] = [.error .logNoMoreBlockIds] := by
  refine ⟨log_block_id_monotone.1 [0, 1, 0], ?_, ?_⟩
  · have h := log_block_id_monotone.2.1 2 (by omega)
    simpa using h
  · have h := log_block_id_monotone.2.2 [0]
    simpa using h

/-- Claim C8 counterexample: when the first `create_block` call fails at
the device (control echo status 1), id 0 is consumed anyway and the first
SUCCESSFUL call returns id 1 — the sequence of successfully returned ids
is `[1]`, which does not start at 0 as the claim states. -/
theorem log_block_id_first_success_not_zero :
    Log.runCreateBlocks 0 [1, 0] = [.error (.logError 1), .ok 1] ∧
    successIds (Log.runCreateBlocks 0 [1, 0]) = [1] ∧ (1 : Nat) ≠ 0 := by
  decide

theorem lookupValues_cons (n : String) (e : Option Value)
    (rest : List (String × Option Value)) (name : String) :
    lookupValues ((n, e) :: rest) name =
      if n = name then some e else lookupValues rest name := rfl

theorem updateValues_cons (n : String) (e : Option Value)
    (rest : List (String × Option Value)) (name : String) (v : Value) :
    updateValues ((n, e) :: rest) name v =
      (if n = name then (n, some v) else (n, e)) :: updateValues rest name v := rfl

theorem lookupValues_updateValues (vs : List (String × Option Value))
    (name : String) (v : Value) (h : (lookupValues vs name).isSome) :
    lookupValues (updateValues vs name v) name = some (some v) := by
  induction vs with
  | nil => simp [lookupValues] at h
  | cons p rest ih =>
    obtain ⟨n, e⟩ := p
    rw [updateValues_cons]
    by_cases hn : n = name
    · rw [if_pos hn, lookupValues_cons, if_pos hn]
    · rw [if_neg hn, lookupValues_cons, if_neg hn]
      rw [lookupValues_cons, if_neg hn] at h
      exact ih h

/-- Claim C4: after a successful `Param::set(name, v)`, `Param::get(name)`
returns `v` served from the local cache with no read request issued on the
link (for every possible device response), and every watcher stream
registered at that moment receives exactly the one new tuple `(name, v)`
appended to its queue. -/
theorem param_set_cache_coherence (toc : ParamToc) (s : ParamState)
    (param : String) (value : Value) (answer : List Nat) (s' : ParamState)
    (h : Param.setStep toc s param value answer = (.ok (), s')) :
    (∀ resp, Param.get toc s' param resp = (.ok value, [], s')) ∧
    s'.watchers = s.watchers.map (fun w => w ++ [(param, value)]) := by
  unfold Param.setStep at h
  cases hres : Param.setResult toc param value answer with
  | error e =>
    rw [hres] at h
    simp at h
  | ok u =>
    cases u
    rw [hres] at h
    cases hgv : s.getValue param with
    | none =>
      rw [hgv] at h
      simp at h
    | some w =>
      rw [hgv] at h
      simp only [Prod.mk.injEq] at h
      obtain ⟨-, hs'⟩ := h
      subst hs'
      have hget : ParamState.getValue
          ⟨updateValues s.values param value, notify_watchers s.watchers param value⟩
          param = some (some value) := by
        unfold ParamState.getValue
        refine lookupValues_updateValues s.values param value ?_
        unfold ParamState.getValue at hgv
        rw [hgv]
        rfl
      constructor
      · intro resp
        simp only [Param.get, hget]
      · rfl

theorem param_set_cache_coherence_witness :
    Param.get tocSample stateSampleAfter "test.u16" [] =
      (.ok (.U16 0xBEEF), [], stateSampleAfter) ∧
    stateSampleAfter.watchers =
      stateSample.watchers.map (fun w => w ++ [("test.u16", .U16 0xBEEF)]) :=
  have h := param_set_cache_coherence tocSample stateSample "test.u16"
      (.U16 0xBEEF) [7, 0, 0xEF, 0xBE] stateSampleAfter (by decide)
  ⟨h.1 [], h.2⟩

theorem memWriteGo_zero (memory_id address : Nat) (data : List Nat)
    (respond : Nat → List Nat) (cur : Nat) :
    MemoryBackend.writeGo memory_id address data respond cur 0 = ([], .ok ()) := by
  simp [MemoryBackend.writeGo]

theorem memWriteGo_succ (memory_id address : Nat) (data : List Nat)
    (respond : Nat → List Nat) (cur r : Nat) :
    MemoryBackend.writeGo memory_id address data respond cur (r + 1) =
      (.send (memory_id :: (natToLeBytes 4 cur ++
          (data.drop (cur - address)).take (min 24 (r + 1)))) ::
       .waitEcho ((memory_id :: (natToLeBytes 4 cur ++
          (data.drop (cur - address)).take (min 24 (r + 1)))).take 5) ::
       (MemoryBackend.writeGo memory_id address data respond
          (cur + min 24 (r + 1)) (r + 1 - min 24 (r + 1))).1,
       (MemoryBackend.writeGo memory_id address data respond
          (cur + min 24 (r + 1)) (r + 1 - min 24 (r + 1))).2) := by
  rw [MemoryBackend.writeGo]

theorem writeChunksSpec_nil (addr : Nat) : writeChunksSpec addr [] = [] := by
  rw [writeChunksSpec]

theorem writeChunksSpec_cons (addr d : Nat) (tl : List Nat) :
    writeChunksSpec addr (d :: tl) =
      (addr, (d :: tl).take 24) ::
        writeChunksSpec (addr + min 24 (d :: tl).length) ((d :: tl).drop 24) := by
  rw [writeChunksSpec]

theorem writeTraceSpec_nil (memory_id addr : Nat) :
    writeTraceSpec memory_id addr [] = [] := by
  rw [writeTraceSpec, writeChunksSpec_nil]
  rfl

theorem writeTraceSpec_cons (memory_id addr d : Nat) (tl : List Nat) :
    writeTraceSpec memory_id addr (d :: tl) =
      .send (memory_id :: (natToLeBytes 4 addr ++ (d :: tl).take 24)) ::
      .waitEcho (memory_id :: natToLeBytes 4 addr) ::
      writeTraceSpec memory_id (addr + min 24 (d :: tl).length) ((d :: tl).drop 24) := by
  rw [writeTraceSpec, writeChunksSpec_cons]
  rfl

theorem take5_request (memory_id cur : Nat) (chunk : List Nat) :
    (memory_id :: (natToLeBytes 4 cur ++ chunk)).take 5 =
      memory_id :: natToLeBytes 4 cur := by
  have h4 := natToLeBytes_length 4 cur
  rw [show (5 : Nat) = 4 + 1 from rfl, List.take_succ_cons,
    List.take_append_eq_append_take, h4, List.take_of_length_le (le_of_eq h4)]
  simp

theorem memWriteGo_trace (memory_id address : Nat) (data : List Nat)
    (respond : Nat → List Nat) :
    ∀ r cur, address ≤ cur → r + (cur - address) = data.length →
    MemoryBackend.writeGo memory_id address data respond cur r =
      (writeTraceSpec memory_id cur (data.drop (cur - address)), .ok ()) := by
  intro r
  induction r using Nat.strong_induction_on with
  | _ r ih =>
    intro cur hle hsum
    match r with
    | 0 =>
      rw [memWriteGo_zero]
      have hnil : data.drop (cur - address) = [] := List.drop_eq_nil_of_le (by omega)
      rw [hnil, writeTraceSpec_nil]
    | r + 1 =>
      rw [memWriteGo_succ]
      have hsl : (data.drop (cur - address)).length = r + 1 := by
        simp only [List.length_drop]
        omega
      obtain ⟨d, tl, hdt⟩ : ∃ d tl, data.drop (cur - address) = d :: tl := by
        cases hs : data.drop (cur - address) with
        | nil => rw [hs] at hsl; simp at hsl
        | cons d tl => exact ⟨d, tl, rfl⟩
      have htake : (data.drop (cur - address)).take (min 24 (r + 1)) =
          (data.drop (cur - address)).take 24 := by
        rcases le_or_lt 24 (r + 1) with h24 | h24
        · rw [min_eq_left h24]
        · rw [min_eq_right (by omega)]
          rw [List.take_of_length_le (by omega), List.take_of_length_le (by omega)]
      have hrec := ih (r + 1 - min 24 (r + 1)) (by omega) (cur + min 24 (r + 1))
        (by omega) (by omega)
      have hdropt : data.drop (cur + min 24 (r + 1) - address) =
          (data.drop (cur - address)).drop 24 := by
        rcases le_or_lt 24 (r + 1) with h24 | h24
        · rw [min_eq_left h24, List.drop_drop]
          congr 1
          omega
        · have h1 : data.drop (cur + min 24 (r + 1) - address) = [] :=
            List.drop_eq_nil_of_le (by omega)
          have h2 : (data.drop (cur - address)).drop 24 = [] :=
            List.drop_eq_nil_of_le (by rw [hsl]; omega)
          rw [h1, h2]
      have hlen : (d :: tl).length = r + 1 := by rw [← hdt]; exact hsl
      rw [take5_request, htake, hrec, hdropt, hdt, writeTraceSpec_cons, hlen]

theorem writeChunksSpec_props : ∀ (n : Nat) (data : List Nat), data.length ≤ n →
    ∀ address,
    ((writeChunksSpec address data).map Prod.snd).flatten = data ∧
    ∀ chunk ∈ writeChunksSpec address data, chunk.2.length ≤ 24 := by
  intro n
  induction n with
  | zero =>
    intro data h address
    have hnil : data = [] := List.eq_nil_of_length_eq_zero (by omega)
    subst hnil
    rw [writeChunksSpec_nil]
    simp
  | succ n ih =>
    intro data h address
    cases data with
    | nil =>
      rw [writeChunksSpec_nil]
      simp
    | cons d tl =>
      rw [writeChunksSpec_cons]
      have hrec := ih ((d :: tl).drop 24) (by simp only [List.length_drop]; omega)
        (address + min 24 (d :: tl).length)
      constructor
      · simp only [List.map_cons, List.flatten_cons, hrec.1]
        exact List.take_append_drop 24 (d :: tl)
      · intro chunk hc
        rcases List.mem_cons.1 hc with hh | hh
        · subst hh
          simp only [List.length_take]
          omega
        · exact hrec.2 chunk hh

/-- Claim C2 (amended): every chunk request of `MemoryBackend::write`
carries the memory id, the 4-byte little-endian address and at most 24
data bytes (the chunks tile `data` at consecutive addresses), and the echo
for each chunk is awaited before the next chunk is sent; but the echoed
status byte is never inspected: the write returns `Ok` for every device
response sequence, aborting on nothing. -/
theorem memory_write_chunking_ignores_status (memory_id address : Nat)
    (data : List Nat) (respond : Nat → List Nat) :
    MemoryBackend.write memory_id address data respond =
      (writeTraceSpec memory_id address data, .ok ()) ∧
    ((writeChunksSpec address data).map Prod.snd).flatten = data ∧
    ∀ chunk ∈ writeChunksSpec address data, chunk.2.length ≤ 24 := by
  refine ⟨?_, (writeChunksSpec_props data.length data (le_refl _) address).1,
    (writeChunksSpec_props data.length data (le_refl _) address).2⟩
  unfold MemoryBackend.write
  have h := memWriteGo_trace memory_id address data respond data.length address
    (le_refl _) (by omega)
  simpa using h

theorem memory_write_chunking_witness :
    MemoryBackend.write 1 0 (List.replicate 30 7) (fun _ => [1, 0, 0, 0, 0, 1]) =
      (writeTraceSpec 1 0 (List.replicate 30 7), .ok ()) ∧
    (List.replicate 24 7).length ≤ 24 :=
  ⟨(memory_write_chunking_ignores_status 1 0 (List.replicate 30 7)
      (fun _ => [1, 0, 0, 0, 0, 1])).1,
   (memory_write_chunking_ignores_status 1 0 (List.replicate 30 7)
      (fun _ => [1, 0, 0, 0, 0, 1])).2.2 (0, List.replicate 24 7)
      (by rw [show List.replicate 30 7 = 7 :: List.replicate 29 7 from rfl,
            writeChunksSpec_cons]
          exact List.mem_cons_self _ _)⟩

/-- Claim C2 counterexample: a write whose every chunk echo carries the
non-zero status byte 1 still returns `Ok` — the source never reads the
status, so a non-zero status does not abort the write. -/
theorem memory_write_status_ignored_cex :
    (MemoryBackend.write 1 0 [66] (fun _ => [1, 0, 0, 0, 0, 1])).2 = .ok () ∧
    ([1, 0, 0, 0, 0, 1] : List Nat).getD 5 0 = 1 := by
  constructor
  · unfold MemoryBackend.write
    have h := memWriteGo_trace 1 0 [66] (fun _ => [1, 0, 0, 0, 0, 1]) 1 0
      (le_refl _) (by simp)
    simp only [List.length_cons, List.length_nil] at h ⊢
    rw [h]
  · rfl

theorem length_response (memory_id cur s : Nat) (pl : List Nat) :
    (memory_id :: (natToLeBytes 4 cur ++ (s :: pl))).length = 6 + pl.length := by
  simp [natToLeBytes_length]
  omega

theorem readAddr_response (memory_id cur s : Nat) (pl : List Nat) :
    ofLeBytes (((memory_id :: (natToLeBytes 4 cur ++ (s :: pl))).drop 1).take 4) =
      cur % 2 ^ 32 := by
  have h4 := natToLeBytes_length 4 cur
  rw [List.drop_succ_cons, List.drop_zero, List.take_append_eq_append_take, h4,
    List.take_of_length_le (le_of_eq h4)]
  simp [ofLeBytes_natToLeBytes4]

theorem getD5_response (memory_id cur s : Nat) (pl : List Nat) :
    (memory_id :: (natToLeBytes 4 cur ++ (s :: pl))).getD 5 0 = s := by
  have h4 := natToLeBytes_length 4 cur
  rw [show (5 : Nat) = 4 + 1 from rfl, List.getD_cons_succ,
    List.getD_append_right _ _ _ _ (le_of_eq h4), h4]
  simp

theorem drop6_response (memory_id cur s : Nat) (pl : List Nat) :
    (memory_id :: (natToLeBytes 4 cur ++ (s :: pl))).drop 6 = pl := by
  have h4 := natToLeBytes_length 4 cur
  rw [show (6 : Nat) = 5 + 1 from rfl, List.drop_succ_cons,
    List.drop_append_eq_append_drop, List.drop_eq_nil_of_le (by omega), h4]
  simp

theorem splice_length (data new : List Nat) (start : Nat)
    (h : start + new.length ≤ data.length) :
    (splice data start new).length = data.length := by
  simp [splice, List.length_take, List.length_drop]
  omega

theorem splice_take (data new : List Nat) (start : Nat)
    (h : start + new.length ≤ data.length) :
    (splice data start new).take (start + new.length) = data.take start ++ new := by
  have hAB : (data.take start ++ new).length = start + new.length := by
    simp [List.length_take]
    omega
  simp only [splice]
  rw [List.take_append_eq_append_take, hAB, List.take_of_length_le (le_of_eq hAB),
    Nat.sub_self, List.take_zero, List.append_nil]

theorem splice_drop (data new : List Nat) (start k : Nat)
    (h : start + new.length ≤ data.length) :
    (splice data start new).drop (start + new.length + k) =
      data.drop (start + new.length + k) := by
  have hAB : (data.take start ++ new).length = start + new.length := by
    simp [List.length_take]
    omega
  have h1 : (data.take start ++ new).drop (start + new.length + k) = [] :=
    List.drop_eq_nil_of_le (by rw [hAB]; omega)
  simp only [splice, List.drop_append_eq_append_drop, hAB, h1, List.drop_drop,
    List.nil_append]
  congr 1
  omega

theorem readReqsSpec_zero (memory_id cur : Nat) :
    readReqsSpec memory_id cur 0 = [] := by
  rw [readReqsSpec]

theorem readReqsSpec_succ (memory_id cur r : Nat) :
    readReqsSpec memory_id cur (r + 1) =
      (memory_id :: (natToLeBytes 4 cur ++ [min 24 (r + 1)])) ::
        readReqsSpec memory_id (cur + min 24 (r + 1)) (r + 1 - min 24 (r + 1)) := by
  rw [readReqsSpec]

theorem readPayloadAll_zero (payload : Nat → Nat → List Nat) (cur : Nat) :
    readPayloadAll payload cur 0 = [] := by
  rw [readPayloadAll]

theorem readPayloadAll_succ (payload : Nat → Nat → List Nat) (cur r : Nat) :
    readPayloadAll payload cur (r + 1) =
      payload cur (min 24 (r + 1)) ++
        readPayloadAll payload (cur + min 24 (r + 1)) (r + 1 - min 24 (r + 1)) := by
  rw [readPayloadAll]

theorem firstBadChunk_zero (st : Nat → Nat) (cur : Nat) :
    firstBadChunk st cur 0 = none := by
  rw [firstBadChunk]

theorem firstBadChunk_succ (st : Nat → Nat) (cur r : Nat) :
    firstBadChunk st cur (r + 1) =
      if st cur ≠ 0 then some cur
      else firstBadChunk st (cur + min 24 (r + 1)) (r + 1 - min 24 (r + 1)) := by
  rw [firstBadChunk]

theorem memReadGo_zero (memory_id address : Nat) (respond : Nat → Nat → List Nat)
    (cur : Nat) (data : List Nat) :
    MemoryBackend.readGo memory_id address respond cur 0 data = ([], .ok data) := by
  rw [MemoryBackend.readGo]

theorem memReadGo_ok (memory_id address : Nat) (payload : Nat → Nat → List Nat)
    (hpay : ∀ cur t, (payload cur t).length = t) :
    ∀ r cur data, address ≤ cur → cur - address + r ≤ data.length →
    MemoryBackend.readGo memory_id address
        (mkReadResponse memory_id (fun _ => 0) payload) cur r data =
      (readReqsSpec memory_id cur r,
       .ok (data.take (cur - address) ++ readPayloadAll payload cur r ++
            data.drop (cur - address + r))) := by
  intro r
  induction r using Nat.strong_induction_on with
  | _ r ih =>
    intro cur data hle hbound
    match r with
    | 0 =>
      rw [memReadGo_zero, readReqsSpec_zero, readPayloadAll_zero]
      simp
    | r + 1 =>
      have ht1 : 1 ≤ min 24 (r + 1) := by omega
      have ht2 : min 24 (r + 1) ≤ r + 1 := by omega
      rw [MemoryBackend.readGo]
      simp only [mkReadResponse]
      rw [if_neg (by rw [length_response] ; omega)]
      rw [if_pos ⟨by rw [length_response] ; omega,
        readAddr_response memory_id cur 0 (payload cur (min 24 (r + 1))),
        getD5_response memory_id cur 0 (payload cur (min 24 (r + 1)))⟩]
      rw [drop6_response]
      rw [if_pos (by rw [hpay] ; omega)]
      have hsplen : (splice data (cur - address) (payload cur (min 24 (r + 1)))).length
          = data.length := splice_length _ _ _ (by rw [hpay] ; omega)
      have hih := ih (r + 1 - min 24 (r + 1)) (by omega) (cur + min 24 (r + 1))
        (splice data (cur - address) (payload cur (min 24 (r + 1))))
        (by omega) (by rw [hsplen] ; omega)
      have e1 : cur + min 24 (r + 1) - address = cur - address + min 24 (r + 1) := by
        omega
      have e2 : cur - address + min 24 (r + 1) + (r + 1 - min 24 (r + 1)) =
          cur - address + (r + 1) := by omega
      have hst := splice_take data (payload cur (min 24 (r + 1))) (cur - address)
        (by rw [hpay] ; omega)
      rw [hpay] at hst
      have hsd := splice_drop data (payload cur (min 24 (r + 1))) (cur - address)
        (r + 1 - min 24 (r + 1)) (by rw [hpay] ; omega)
      rw [hpay] at hsd
      rw [e2] at hsd
      rw [hih]
      dsimp only
      rw [e1, e2, hst, hsd, readReqsSpec_succ, readPayloadAll_succ]
      simp [List.append_assoc]

theorem memReadGo_abort (memory_id address : Nat) (st : Nat → Nat)
    (payload : Nat → Nat → List Nat)
    (hpay : ∀ cur t, (payload cur t).length = t) :
    ∀ r cur data c, address ≤ cur → cur - address + r ≤ data.length →
    firstBadChunk st cur r = some c →
    (MemoryBackend.readGo memory_id address
        (mkReadResponse memory_id st payload) cur r data).2 =
      .error (.memoryStatusError (st c) c) := by
  intro r
  induction r using Nat.strong_induction_on with
  | _ r ih =>
    intro cur data c hle hbound hbad
    match r with
    | 0 =>
      rw [firstBadChunk_zero] at hbad
      cases hbad
    | r + 1 =>
      rw [firstBadChunk_succ] at hbad
      by_cases hstc : st cur ≠ 0
      · rw [if_pos hstc] at hbad
        injection hbad with hc
        subst hc
        rw [MemoryBackend.readGo]
        simp only [mkReadResponse]
        rw [if_neg (by rw [length_response] ; omega)]
        rw [getD5_response]
        rw [if_neg (fun h => hstc h.2.2)]
        rw [if_pos hstc]
      · rw [if_neg hstc] at hbad
        push_neg at hstc
        rw [MemoryBackend.readGo]
        simp only [mkReadResponse]
        rw [if_neg (by rw [length_response] ; omega)]
        rw [getD5_response]
        rw [if_pos ⟨by rw [length_response] ; omega,
          readAddr_response memory_id cur (st cur) (payload cur (min 24 (r + 1))),
          hstc⟩]
        rw [drop6_response]
        rw [if_pos (by rw [hpay] ; omega)]
        dsimp only
        have hsplen := splice_length data (payload cur (min 24 (r + 1)))
          (cur - address) (by rw [hpay] ; omega)
        exact ih (r + 1 - min 24 (r + 1)) (by omega) (cur + min 24 (r + 1)) _ c
          (by omega) (by rw [hsplen] ; omega) hbad

theorem readReqsSpec_concrete :
    readReqsSpec 2 4096 50 =
      [[2, 0, 16, 0, 0, 24], [2, 24, 16, 0, 0, 24], [2, 48, 16, 0, 0, 2]] := by
  rw [show (50 : Nat) = 49 + 1 from rfl, readReqsSpec_succ,
    show min 24 (49 + 1) = 24 from rfl,
    show (4096 + 24 : Nat) = 4120 from rfl,
    show (49 + 1 - 24 : Nat) = 25 + 1 from rfl,
    readReqsSpec_succ,
    show min 24 (25 + 1) = 24 from rfl,
    show (4120 + 24 : Nat) = 4144 from rfl,
    show (25 + 1 - 24 : Nat) = 1 + 1 from rfl,
    readReqsSpec_succ,
    show min 24 (1 + 1) = 2 from rfl,
    show (4144 + 2 : Nat) = 4146 from rfl,
    show (1 + 1 - 2 : Nat) = 0 from rfl,
    readReqsSpec_zero]
  rfl

/-- Claim C6: every read splits into sequential chunk requests
`id ∥ addr_le32 ∥ len_u8` of at most 24 payload bytes (a 50-byte read at
0x1000 issues exactly the three requests of lengths 24, 24 and 2 at
consecutive addresses); with all-zero statuses the result assembles each
response's bytes at its address offset, and a non-zero status byte aborts
the whole read with `MemoryError`. -/
theorem memory_read_chunking :
    (∀ payload : Nat → Nat → List Nat, (∀ cur t, (payload cur t).length = t) →
      (MemoryBackend.read 2 4096 50 (mkReadResponse 2 (fun _ => 0) payload)).1 =
        [[2, 0, 16, 0, 0, 24], [2, 24, 16, 0, 0, 24], [2, 48, 16, 0, 0, 2]]) ∧
    (∀ memory_id address length payload,
      (∀ cur t, (payload cur t).length = t) →
      MemoryBackend.read memory_id address length
          (mkReadResponse memory_id (fun _ => 0) payload) =
        (readReqsSpec memory_id address length,
         .ok (readPayloadAll payload address length))) ∧
    (∀ memory_id address length st payload c,
      (∀ cur t, (payload cur t).length = t) →
      firstBadChunk st address length = some c →
      (MemoryBackend.read memory_id address length
          (mkReadResponse memory_id st payload)).2 =
        .error (.memoryStatusError (st c) c)) := by
  have hgen : ∀ memory_id address length payload,
      (∀ cur t, (payload cur t).length = t) →
      MemoryBackend.read memory_id address length
          (mkReadResponse memory_id (fun _ => 0) payload) =
        (readReqsSpec memory_id address length,
         .ok (readPayloadAll payload address length)) := by
    intro memory_id address length payload hpay
    unfold MemoryBackend.read
    have h := memReadGo_ok memory_id address payload hpay length address
      (List.replicate length 0) (le_refl _) (by simp)
    simpa using h
  refine ⟨?_, hgen, ?_⟩
  · intro payload hpay
    rw [hgen 2 4096 50 payload hpay]
    dsimp only
    exact readReqsSpec_concrete
  · intro memory_id address length st payload c hpay hbad
    unfold MemoryBackend.read
    exact memReadGo_abort memory_id address st payload hpay length address
      (List.replicate length 0) c (le_refl _) (by simp) hbad

theorem memory_read_chunking_witness :
    (MemoryBackend.read 2 4096 50
        (mkReadResponse 2 (fun _ => 0) (fun _ t => List.replicate t 7))).1 =
      [[2, 0, 16, 0, 0, 24], [2, 24, 16, 0, 0, 24], [2, 48, 16, 0, 0, 2]] ∧
    (MemoryBackend.read 2 4096 50
        (mkReadResponse 2 (fun _ => 1) (fun _ t => List.replicate t 7))).2 =
      .error (.memoryStatusError 1 4096) :=
  ⟨memory_read_chunking.1 (fun _ t => List.replicate t 7) (fun cur t => by simp),
   memory_read_chunking.2.2 2 4096 50 (fun _ => 1) (fun _ t => List.replicate t 7)
     4096 (fun cur t => by simp)
     (by rw [show (50 : Nat) = 49 + 1 from rfl, firstBadChunk_succ,
           if_pos (by decide)])⟩
